import Mathlib

/-!
Shallow embedding of the budget-bounded subgame solver
(`services/solver/src`: `abstraction.rs`, `game_tree.rs`, `cfr.rs`,
`solver.rs`) and proofs about the specified properties.

Modelling conventions:
* Rust `f64` arithmetic is embedded as exact rational (`ℚ`) arithmetic,
  the idealized real-number semantics the specification reasons in.
* Rust `Option`-free fallible steps (`str::parse::<f64>()`,
  `serde_json::from_str`) are embedded as `Option` values describing
  whether the parse succeeded; their `unwrap_or` defaults are `Option.getD`.
* A Rust panic (`unwrap()` on `None`) is embedded as an `Option.none`
  result of the embedded function.
* Wall-clock readings (`BudgetClock::elapsed_millis`) are passed to the
  embedded `solve` as an explicit parameter, since they are the only
  ambient state the code reads.
-/

namespace SolverSpec

/-- Clamp a rational to the interval from `lo` to `hi`, as Rust
`f64::clamp(lo, hi)` computes for `lo ≤ hi`. -/
def qclamp (x lo hi : ℚ) : ℚ := min (max x lo) hi

/-- Machine epsilon of `f64` (Rust `f64::EPSILON`, which is `2⁻⁵²`),
as an exact rational. -/
def f64Epsilon : ℚ := 1 / 2 ^ 52

/-- Round a rational to the nearest integer, ties to even, as Rust float
formatting rounds decimal digits. -/
def roundHalfEven (q : ℚ) : ℤ :=
  let n := ⌊q⌋
  let r := q - n
  if r < 1 / 2 then n
  else if 1 / 2 < r then n + 1
  else if 2 ∣ n then n else n + 1

/-- Left-pad a two-digit numeral, helper for `fmt2`. -/
def pad2 (n : ℕ) : String := if n < 10 then "0" ++ toString n else toString n

/-- Render a nonnegative rational with exactly two decimal places, as Rust
`format!` with precision 2 renders the corresponding `f64`. -/
def fmt2 (q : ℚ) : String :=
  let h := (roundHalfEven (q * 100)).toNat
  toString (h / 100) ++ "." ++ pad2 (h % 100)

/-- One raw action token after the string dispatch performed by
`parse_action_token` (`abstraction.rs` lines 54-97): the case-insensitive
keyword `all-in`; a `pot:` / `stack:` / `abs:` prefixed token whose numeric
suffix either parses as a float (`some`) or fails to parse (`none`, which
the code defaults to `0.0` via `unwrap_or`); a bare numeral that parses as
a float; or anything else. The constructors are mutually exclusive exactly
as the sequential prefix tests in the code are. -/
inductive Token where
  | allin : Token
  | pot (fraction : Option ℚ) : Token
  | stackFrac (fraction : Option ℚ) : Token
  | absAmt (value : Option ℚ) : Token
  | bare (value : ℚ) : Token
  | other : Token
deriving DecidableEq

/-- One proposed action (`abstraction.rs` lines 3-7). -/
structure ActionSpec where
  label : String
  amount : ℚ
deriving DecidableEq

/-- Blind sizes parsed from the game-state blob (`abstraction.rs`
lines 19-23); serde defaults a missing field to `0.0`. -/
structure BlindSummary where
  big : ℚ
deriving DecidableEq

/-- Game-state summary parsed from the opaque blob (`abstraction.rs`
lines 9-17). -/
structure GameStateSummary where
  pot : ℚ
  street : String
  blinds : BlindSummary
deriving DecidableEq

/-- Pot size in big blinds (`abstraction.rs` lines 26-34). -/
def GameStateSummary.pot_in_bb (s : GameStateSummary) : ℚ :=
  let big_blind := max s.blinds.big 1
  let derived := if 0 < big_blind then s.pot / big_blind else s.pot
  max derived 1

/-- Parse one token into an action spec (`abstraction.rs` lines 54-97).
Returns `none` when the token is dropped. -/
def parse_action_token (token : Token) (pot_bb stack_cap : ℚ) :
    Option ActionSpec :=
  match token with
  | .allin => some { label := "all-in", amount := stack_cap }
  | .pot f =>
      let fraction := max (f.getD 0) (1 / 100)
      some { label := "pot-" ++ fmt2 fraction
             amount := qclamp (fraction * pot_bb) (1 / 2) stack_cap }
  | .stackFrac f =>
      let fraction := qclamp (f.getD 0) 0 1
      some { label := "stack-" ++ fmt2 fraction
             amount := max (fraction * stack_cap) (1 / 2) }
  | .absAmt v =>
      let value := max (v.getD 0) 0
      some { label := "abs-" ++ fmt2 value
             amount := min value stack_cap }
  | .bare v =>
      if 0 < v then
        some { label := "abs-" ++ fmt2 v, amount := min v stack_cap }
      else none
  | .other => none

/-- Parse a raw token list into action specs (`abstraction.rs`
lines 37-52). -/
def parse_action_set (raw : List Token) (summary : GameStateSummary)
    (effective_stack_bb : ℚ) : List ActionSpec :=
  if raw.isEmpty then [] else
  let pot_bb := summary.pot_in_bb
  let stack_cap := max effective_stack_bb 1
  raw.filterMap (fun value => parse_action_token value pot_bb stack_cap)

/-- Lexicographic comparison of character sequences by code point, the
order Rust's `Ord` for `String` induces (byte-wise lexicographic order on
UTF-8 agrees with code-point-wise lexicographic order). -/
def chars_le : List Char → List Char → Bool
  | [], _ => true
  | _ :: _, [] => false
  | x :: xs, y :: ys =>
    if x.toNat < y.toNat then true
    else if y.toNat < x.toNat then false
    else chars_le xs ys

/-- String comparison used by `Vec::<String>::sort()` in
`bucket_hole_cards`. -/
def str_le (a b : String) : Bool := chars_le a.data b.data

/-- Hole-card bucketing (`abstraction.rs` lines 99-113). The Rust function
returns `String` but calls `unwrap()` on the first character of the first
sorted card (pair branch) and on the last character of the first supplied
card (suited branch); a panic of either `unwrap` is embedded as `none`.
Rust's stable `sort()` is embedded as a stable sort by the same total
order; `chars().next()` is the head of the character list and
`ends_with(char)` compares the last character. -/
def bucket_hole_cards (card_codes : List String) : Option String :=
  if card_codes.length < 2 then some "unknown" else
  let cards := card_codes.insertionSort (fun a b => str_le a b = true)
  let c0 := cards.getD 0 ""
  let c1 := cards.getD 1 ""
  if c0.data.head? = c1.data.head? then
    match c0.data.head? with
    | some ch => some ("pair-" ++ String.mk [ch])
    | none => none
  else
    match (card_codes.getD 0 "").data.getLast? with
    | none => none
    | some suit_ch =>
      let suited := cards.all (fun card => decide (card.data.getLast? = some suit_ch))
      some (c0 ++ c1 ++ (if suited then "s" else "o"))

/-- One edge of the decision node (`game_tree.rs` lines 3-7). -/
structure GameTreeAction where
  label : String
  amount : ℚ
deriving DecidableEq

/-- The flat decision node (`game_tree.rs` lines 9-13). -/
structure GameTree where
  actions : List GameTreeAction
  effective_stack_bb : ℚ
deriving DecidableEq

/-- Build the decision node from action specs (`game_tree.rs`
lines 16-34). -/
def GameTree.from_action_specs (specs : List ActionSpec)
    (effective_stack_bb : ℚ) : GameTree :=
  { actions := specs.map (fun (spec : ActionSpec) =>
      { label := spec.label
        amount :=
          if spec.amount ≤ 0 then max effective_stack_bb 1
          else min spec.amount (max effective_stack_bb 1) : GameTreeAction })
    effective_stack_bb := effective_stack_bb }

/-- Emptiness test (`game_tree.rs` lines 36-38). -/
def GameTree.is_empty (t : GameTree) : Bool := t.actions.isEmpty

/-- Per-action solver output (`cfr.rs` lines 3-10). -/
structure ActionStat where
  label : String
  amount : ℚ
  frequency : ℚ
  ev : ℚ
  regret : ℚ
deriving DecidableEq

/-- Default element used when indexing stat lists. -/
def dfltStat : ActionStat :=
  { label := "", amount := 0, frequency := 0, ev := 0, regret := 0 }

/-- Position-based modulation factor of `run_cfr` (`cfr.rs` lines 24
and 39): later-indexed actions are discounted by five percent each. -/
def cfr_modulation (index : ℕ) : ℚ := 1 - (index : ℚ) * (5 / 100)

/-- The action count of the tree as a rational (`count` in `cfr.rs`
line 18). -/
def cfr_count (tree : GameTree) : ℚ := tree.actions.length

/-- Uniform base frequency (`base_frequency` in `cfr.rs` line 19). -/
def cfr_base_frequency (tree : GameTree) : ℚ := 1 / cfr_count tree

/-- Raw (pre-normalization) frequencies accumulated by the first loop of
`run_cfr` (`cfr.rs` lines 21-28). -/
def cfr_raw_freqs (tree : GameTree) : List ℚ :=
  (List.range tree.actions.length).map
    (fun index => max (cfr_base_frequency tree * cfr_modulation index) 0)

/-- The accumulated total of the raw frequencies (`total` after the first
loop, `cfr.rs` lines 22-27). -/
def cfr_total0 (tree : GameTree) : ℚ := (cfr_raw_freqs tree).sum

/-- The normalization total after the degenerate-fallback rewrite
(`cfr.rs` lines 30-33). -/
def cfr_total (tree : GameTree) : ℚ :=
  if cfr_total0 tree ≤ f64Epsilon then cfr_count tree else cfr_total0 tree

/-- The raw-frequency list after the degenerate-fallback rewrite
(`cfr.rs` lines 30-33): every entry becomes `1.0` when the total collapsed
to (near) zero. -/
def cfr_freqs (tree : GameTree) : List ℚ :=
  if cfr_total0 tree ≤ f64Epsilon then (cfr_raw_freqs tree).map (fun _ => 1)
  else cfr_raw_freqs tree

/-- The closed-form regret-matching pass (`cfr.rs` lines 12-53); its
local state is given by the `cfr_` definitions above. -/
def run_cfr (tree : GameTree) (iterations : ℕ) : List ActionStat :=
  if tree.actions.isEmpty then [] else
  let n : ℚ := (max iterations 1 : ℕ)
  tree.actions.enum.map (fun p =>
    { label := p.2.label
      amount := p.2.amount
      frequency := qclamp ((cfr_freqs tree).getD p.1 0 / cfr_total tree) 0 1
      ev := (max tree.effective_stack_bb 1 / 100) * max (cfr_modulation p.1) (1 / 10)
      regret := ((n - 1) / n) * max (1 / 10 - (p.1 : ℚ) * (1 / 100)) 0 })

/-- Modelled from the spec: the `SubgameRequest` message whose fields are
declared in `proto/solver.proto`, which is not part of the sources; field
names and semantic types follow the specification of the external
interface and the uses in `solver.rs`. The opaque `game_state_json` blob
is embedded as the result of attempting to deserialize it into a
`GameStateSummary` (`none` when malformed). -/
structure SubgameRequest where
  state_fingerprint : String
  game_state_json : Option GameStateSummary
  budget_ms : ℤ
  effective_stack_bb : ℤ
  action_set : List Token
deriving DecidableEq

/-- Modelled from the spec: one action entry of the response message
declared in the missing `proto/solver.proto`. -/
structure ActionProb where
  action_type : String
  amount : ℚ
  frequency : ℚ
  ev : ℚ
  regret : ℚ
deriving DecidableEq

/-- Modelled from the spec: the `SubgameResponse` message declared in the
missing `proto/solver.proto`. `compute_time_ms` holds the clock reading
taken when the response is assembled. -/
structure SubgameResponse where
  actions : List ActionProb
  exploitability : ℚ
  compute_time_ms : ℕ
  source : String
deriving DecidableEq

/-- Deserialize the game-state blob with an all-zero fallback
(`solver.rs` lines 71-76; the fallback literal there omits the mandatory
`blinds` field, a compile error - the serde default for a missing field,
`0.0`, is used here). -/
def parse_game_state (json : Option GameStateSummary) : GameStateSummary :=
  json.getD { pot := 0, street := "", blinds := { big := 0 } }

/-- Iteration count from budget and branching factor (`solver.rs`
lines 42-45). The Rust `i32` division truncates; the dividend is at least
50, so truncation, flooring and euclidean division coincide. -/
def determine_iterations (budget_ms : ℤ) (action_count : ℕ) : ℕ :=
  let base := ((max budget_ms 50) / 10).toNat
  max base (max action_count 5)

/-- Assemble the response from stats (`solver.rs` lines 47-69);
`elapsed_ms` is the clock reading at assembly time. -/
def build_response (stats : List ActionStat) (elapsed_ms : ℕ)
    (exploitability : ℚ) : SubgameResponse :=
  { actions := stats.map (fun stat =>
      { action_type := stat.label
        amount := stat.amount
        frequency := stat.frequency
        ev := stat.ev
        regret := stat.regret })
    exploitability := exploitability
    compute_time_ms := elapsed_ms
    source := "subgame" }

/-- The solve pipeline (`solver.rs` lines 14-33). As written,
`solver.rs` line 17 passes only the token list and the effective stack to
`parse_action_set`, omitting the `&GameStateSummary` argument that
`abstraction.rs` line 37 requires - a type error, so the crate does not
compile. The call is embedded in the three-argument form used by the
crate's own tests (`tests/solver.rs` lines 12-16) and by the
specification (step 3 of the orchestration): the summary parsed from the
request feeds the abstraction. `elapsed_ms` is the wall-clock reading the
`BudgetClock` would report when the response is assembled. -/
def SolverEngine.solve (request : SubgameRequest) (elapsed_ms : ℕ) :
    SubgameResponse :=
  let summary := parse_game_state request.game_state_json
  let action_specs :=
    parse_action_set request.action_set summary
      (request.effective_stack_bb : ℚ)
  if action_specs.isEmpty then
    { actions := []
      exploitability := 0
      compute_time_ms := elapsed_ms
      source := "subgame" }
  else
    let tree :=
      GameTree.from_action_specs action_specs
        (request.effective_stack_bb : ℚ)
    let iterations := determine_iterations request.budget_ms tree.actions.length
    let stats := run_cfr tree iterations
    let exploitability := qclamp (summary.pot / 1000) 0 (1 / 2)
    build_response stats elapsed_ms exploitability

/-- Default element used when indexing spec lists. -/
def dfltSpec : ActionSpec := { label := "", amount := 0 }

/-- Default element used when indexing tree-action lists. -/
def dfltTreeAction : GameTreeAction := { label := "", amount := 0 }

/-- Example game-state summary with a pot of 20 chips and a big blind of
2 chips. -/
def potSummary : GameStateSummary :=
  { pot := 20, street := "preflop", blinds := { big := 2 } }

/-- Example request with an empty action set. -/
def emptyReq : SubgameRequest :=
  { state_fingerprint := "w"
    game_state_json := some potSummary
    budget_ms := -5
    effective_stack_bb := 100
    action_set := [] }

/-- Example request asking for a half-pot bet, parameterized by the pot
size carried in the game-state blob. -/
def reqPot (pot : ℚ) : SubgameRequest :=
  { state_fingerprint := "x"
    game_state_json := some { pot := pot, street := "flop", blinds := { big := 2 } }
    budget_ms := 100
    effective_stack_bb := 150
    action_set := [Token.pot (some (1 / 2))] }

/-- Example two-action tree used to instantiate universally quantified
theorems. -/
def witTree : GameTree :=
  { actions := [{ label := "a", amount := 3 }, { label := "b", amount := 4 }]
    effective_stack_bb := 100 }

end SolverSpec

namespace SolverSpec

/-- Two decimal places of one half. -/
lemma fmt2_half : fmt2 (1 / 2) = "0.50" := by
  unfold fmt2 roundHalfEven pad2
  norm_num
  decide

/-- Two decimal places of one hundredth. -/
lemma fmt2_hundredth : fmt2 (1 / 100) = "0.01" := by
  unfold fmt2 roundHalfEven pad2
  norm_num
  decide

/-- Two decimal places of one thousandth. -/
lemma fmt2_thousandth : fmt2 (1 / 1000) = "0.00" := by
  unfold fmt2 roundHalfEven pad2
  norm_num
  decide

/-- C7: for every budget (including negative and zero) and every action
count, the iteration count equals the maximum of the budget-derived base
(budget clamped to at least 50 then integer-divided by 10), the action
count and 5; for non-positive budgets it is at least the maximum of the
action count and 5 and is strictly positive. -/
theorem determine_iterations_spec (budget_ms : ℤ) (action_count : ℕ) :
    (determine_iterations budget_ms action_count : ℤ) =
      max ((max budget_ms 50) / 10) (max (action_count : ℤ) 5)
    ∧ (budget_ms ≤ 0 →
        max action_count 5 ≤ determine_iterations budget_ms action_count
        ∧ 0 < determine_iterations budget_ms action_count) := by
  constructor
  · have h0 : (0 : ℤ) ≤ (max budget_ms 50) / 10 :=
      Int.ediv_nonneg (le_max_of_le_right (by norm_num)) (by norm_num)
    unfold determine_iterations
    push_cast [Int.toNat_of_nonneg h0]
    rfl
  · intro _
    refine ⟨le_max_right _ _, ?_⟩
    exact lt_of_lt_of_le (by norm_num)
      (le_trans (le_max_right action_count 5) (le_max_right _ _))

/-- Witness for C7 at a negative budget of -3 ms and two actions. -/
theorem determine_iterations_spec_witness :
    max 2 5 ≤ determine_iterations (-3) 2 ∧ 0 < determine_iterations (-3) 2 :=
  (determine_iterations_spec (-3) 2).2 (by norm_num)

/-- C8: for one request, every response component other than
`compute_time_ms` is independent of the wall-clock readings, so two solve
calls on byte-identical requests return identical labels, amounts,
frequencies, evs, regrets and exploitability. -/
theorem solve_deterministic (r : SubgameRequest) (t1 t2 : ℕ) :
    (SolverEngine.solve r t1).actions = (SolverEngine.solve r t2).actions
    ∧ (SolverEngine.solve r t1).exploitability =
        (SolverEngine.solve r t2).exploitability
    ∧ (SolverEngine.solve r t1).source = (SolverEngine.solve r t2).source := by
  by_cases h : (parse_action_set r.action_set
      (parse_game_state r.game_state_json) (r.effective_stack_bb : ℚ)).isEmpty
  <;> simp [SolverEngine.solve, h, build_response]

/-- C6: a request whose parsed action set is empty gets a structurally
valid response with no actions and zero exploitability, and the empty
token list parses to the empty action set for every summary and stack. -/
theorem solve_empty_actions :
    (∀ (r : SubgameRequest) (t : ℕ),
        parse_action_set r.action_set (parse_game_state r.game_state_json)
            (r.effective_stack_bb : ℚ) = [] →
        SolverEngine.solve r t =
          { actions := [], exploitability := 0, compute_time_ms := t
            source := "subgame" })
    ∧ ∀ (summary : GameStateSummary) (stack : ℚ),
        parse_action_set [] summary stack = [] := by
  constructor
  · intro r t h
    simp [SolverEngine.solve, h]
  · intro summary stack
    rfl

/-- Witness for C6: a concrete empty-action-set request at clock reading
7 ms. -/
theorem solve_empty_actions_witness :
    SolverEngine.solve emptyReq 7 =
      { actions := [], exploitability := 0, compute_time_ms := 7
        source := "subgame" } :=
  solve_empty_actions.1 emptyReq 7 rfl

/-- A non-empty list is not `isEmpty`. -/
lemma isEmpty_false_of_ne {α : Type} {l : List α} (h : l ≠ []) :
    l.isEmpty = false := by
  cases l with
  | nil => exact absurd rfl h
  | cons a t => rfl

/-- Mapping a first-component function over a zip of equal-length lists
maps over the first list. -/
lemma map_zip_fst {α β γ : Type} (F : α × β → γ) (g : α → γ)
    (hF : ∀ a b, F (a, b) = g a) :
    ∀ (l1 : List α) (l2 : List β), l1.length = l2.length →
      (l1.zip l2).map F = l1.map g := by
  intro l1
  induction l1 with
  | nil => intro l2 _; rfl
  | cons a t ih =>
    intro l2 hlen
    cases l2 with
    | nil => exact absurd hlen (by simp)
    | cons b t2 =>
      simp only [List.zip_cons_cons, List.map_cons, hF]
      rw [ih t2 (by simpa using hlen)]

/-- Mapping a second-component function over a zip of equal-length lists
maps over the second list. -/
lemma map_zip_snd {α β γ : Type} (F : α × β → γ) (g : β → γ)
    (hF : ∀ a b, F (a, b) = g b) :
    ∀ (l1 : List α) (l2 : List β), l1.length = l2.length →
      (l1.zip l2).map F = l2.map g := by
  intro l1
  induction l1 with
  | nil =>
    intro l2 hlen
    cases l2 with
    | nil => rfl
    | cons b t2 => exact absurd hlen (by simp)
  | cons a t ih =>
    intro l2 hlen
    cases l2 with
    | nil => exact absurd hlen (by simp)
    | cons b t2 =>
      simp only [List.zip_cons_cons, List.map_cons, hF]
      rw [ih t2 (by simpa using hlen)]

/-- Shape of `run_cfr` on a non-empty tree: one stat per enumerated
action. -/
lemma run_cfr_eq (tree : GameTree) (it : ℕ) (h : tree.actions ≠ []) :
    run_cfr tree it = tree.actions.enum.map (fun p =>
      ({ label := p.2.label
         amount := p.2.amount
         frequency := qclamp ((cfr_freqs tree).getD p.1 0 / cfr_total tree) 0 1
         ev := (max tree.effective_stack_bb 1 / 100) *
           max (cfr_modulation p.1) (1 / 10)
         regret := ((((max it 1 : ℕ) : ℚ) - 1) / ((max it 1 : ℕ) : ℚ)) *
           max (1 / 10 - (p.1 : ℚ) * (1 / 100)) 0 } : ActionStat)) := by
  rw [run_cfr, if_neg (fun hc => h (List.isEmpty_iff.mp hc))]

/-- The regret pass does not change the bet amounts or their order. -/
lemma run_cfr_amounts (tree : GameTree) (it : ℕ) (h : tree.actions ≠ []) :
    (run_cfr tree it).map (fun s => s.amount) =
      tree.actions.map (fun a => a.amount) := by
  rw [run_cfr_eq tree it h, List.map_map, List.enum_eq_zip_range]
  exact map_zip_snd _ _ (fun a b => rfl) _ _ (by simp)

/-- The pot in big blinds, written as the specification writes it; the
division guard in the code is dead because the denominator is at least
one. -/
lemma pot_in_bb_eq (s : GameStateSummary) :
    s.pot_in_bb = max (s.pot / max s.blinds.big 1) 1 := by
  show max (if 0 < max s.blinds.big 1 then s.pot / max s.blinds.big 1 else s.pot) 1
    = max (s.pot / max s.blinds.big 1) 1
  rw [if_pos (lt_of_lt_of_le one_pos (le_max_right _ _))]

/-- Parsing a single pot-fraction token, symbolically. -/
lemma parse_single_pot (f : Option ℚ) (s : GameStateSummary) (stack : ℚ) :
    parse_action_set [Token.pot f] s stack =
      [{ label := "pot-" ++ fmt2 (max (f.getD 0) (1 / 100))
         amount := qclamp ((max (f.getD 0) (1 / 100)) *
             max (s.pot / max s.blinds.big 1) 1) (1 / 2) (max stack 1) }] := by
  unfold parse_action_set
  rw [if_neg (by simp)]
  simp [parse_action_token, pot_in_bb_eq]

/-- The amounts in a non-terminal response are the parsed amounts clamped
to the stack cap. -/
lemma solve_actions_amounts (r : SubgameRequest) (t : ℕ)
    (h : parse_action_set r.action_set (parse_game_state r.game_state_json)
        (r.effective_stack_bb : ℚ) ≠ []) :
    (SolverEngine.solve r t).actions.map (fun a => a.amount) =
      (parse_action_set r.action_set (parse_game_state r.game_state_json)
          (r.effective_stack_bb : ℚ)).map
        (fun s => if s.amount ≤ 0 then max (r.effective_stack_bb : ℚ) 1
          else min s.amount (max (r.effective_stack_bb : ℚ) 1)) := by
  have hne : (GameTree.from_action_specs
      (parse_action_set r.action_set (parse_game_state r.game_state_json)
        (r.effective_stack_bb : ℚ)) (r.effective_stack_bb : ℚ)).actions ≠ [] := by
    simp [GameTree.from_action_specs, h]
  simp only [SolverEngine.solve, isEmpty_false_of_ne h, Bool.false_eq_true,
    if_false, build_response, List.map_map]
  rw [show ((fun a : ActionProb => a.amount) ∘ fun stat : ActionStat =>
      ({ action_type := stat.label, amount := stat.amount
         frequency := stat.frequency, ev := stat.ev
         regret := stat.regret } : ActionProb)) = fun s : ActionStat => s.amount
    from rfl]
  rw [run_cfr_amounts _ _ hne]
  simp [GameTree.from_action_specs, List.map_map]

/-- C2 (intended behavior): with the summary fed into the abstraction as
the specification and the crate's tests require, the bet amounts of the
response depend on the pot carried in `game_state_json` - the dependence
that the two-argument call at `solver.rs` line 17 cannot provide. -/
theorem solve_pot_dependence :
    ((SolverEngine.solve (reqPot 20) 0).actions.map (fun a => a.amount) = [5])
    ∧ ((SolverEngine.solve (reqPot 40) 0).actions.map (fun a => a.amount) = [10])
    ∧ (SolverEngine.solve (reqPot 20) 0).actions.map (fun a => a.amount) ≠
        (SolverEngine.solve (reqPot 40) 0).actions.map (fun a => a.amount) := by
  have e20 : parse_action_set (reqPot 20).action_set
      (parse_game_state (reqPot 20).game_state_json)
      ((reqPot 20).effective_stack_bb : ℚ) =
      [{ label := "pot-0.50", amount := 5 }] := by
    show parse_action_set [Token.pot (some (1 / 2))]
      { pot := 20, street := "flop", blinds := { big := 2 } } ((150 : ℤ) : ℚ) = _
    rw [parse_single_pot]
    norm_num [qclamp, max_def, min_def, fmt2_half]
    rfl
  have e40 : parse_action_set (reqPot 40).action_set
      (parse_game_state (reqPot 40).game_state_json)
      ((reqPot 40).effective_stack_bb : ℚ) =
      [{ label := "pot-0.50", amount := 10 }] := by
    show parse_action_set [Token.pot (some (1 / 2))]
      { pot := 40, street := "flop", blinds := { big := 2 } } ((150 : ℤ) : ℚ) = _
    rw [parse_single_pot]
    norm_num [qclamp, max_def, min_def, fmt2_half]
    rfl
  have h20 : (SolverEngine.solve (reqPot 20) 0).actions.map
      (fun a => a.amount) = [5] := by
    rw [solve_actions_amounts (reqPot 20) 0 (by rw [e20]; simp), e20]
    norm_num [reqPot, max_def, min_def]
  have h40 : (SolverEngine.solve (reqPot 40) 0).actions.map
      (fun a => a.amount) = [10] := by
    rw [solve_actions_amounts (reqPot 40) 0 (by rw [e40]; simp), e40]
    norm_num [reqPot, max_def, min_def]
  refine ⟨h20, h40, ?_⟩
  rw [h20, h40]
  norm_num

/-- An in-bounds `getD` is a member of the list. -/
lemma getD_mem_of_lt {α : Type} (l : List α) (i : ℕ) (d : α)
    (h : i < l.length) : l.getD i d ∈ l := by
  rw [List.getD_eq_getElem?_getD, List.getElem?_eq_getElem h]
  simp only [Option.getD_some]
  exact List.getElem_mem h

/-- C3 (amended): every tree amount is clamped to at most
`max effective_stack_bb 1`, and a spec with non-positive amount becomes
exactly `max effective_stack_bb 1` (all-in floored at one big blind). -/
theorem from_action_specs_clamped (specs : List ActionSpec) (stack : ℚ) :
    (∀ a ∈ (GameTree.from_action_specs specs stack).actions,
        a.amount ≤ max stack 1)
    ∧ (∀ i < specs.length, (specs.getD i dfltSpec).amount ≤ 0 →
        ((GameTree.from_action_specs specs stack).actions.getD i
            dfltTreeAction).amount = max stack 1) := by
  constructor
  · intro a ha
    simp only [GameTree.from_action_specs, List.mem_map] at ha
    obtain ⟨spec, -, rfl⟩ := ha
    dsimp only
    split
    · exact le_refl _
    · exact min_le_right _ _
  · intro i hi hneg
    have hget : ((GameTree.from_action_specs specs stack).actions.getD i
        dfltTreeAction) =
        { label := (specs.getD i dfltSpec).label
          amount := if (specs.getD i dfltSpec).amount ≤ 0 then max stack 1
            else min (specs.getD i dfltSpec).amount (max stack 1) } := by
      simp only [GameTree.from_action_specs, List.getD_eq_getElem?_getD,
        List.getElem?_map, List.getElem?_eq_getElem hi, Option.map_some',
        Option.getD_some]
    rw [hget]
    dsimp only
    rw [if_pos hneg]

/-- Witness for C3 at a positive oversized amount and at a zero amount,
with stack 150. -/
theorem from_action_specs_clamped_witness :
    (({ label := "x"
        amount := if (2 : ℚ) ≤ 0 then max (150 : ℚ) 1
          else min 2 (max (150 : ℚ) 1) } : GameTreeAction).amount
      ≤ max (150 : ℚ) 1)
    ∧ ((GameTree.from_action_specs [{ label := "y", amount := 0 }]
          150).actions.getD 0 dfltTreeAction).amount = max (150 : ℚ) 1 :=
  ⟨(from_action_specs_clamped [{ label := "x", amount := 2 }] 150).1 _
      (by simp [GameTree.from_action_specs]),
   (from_action_specs_clamped [{ label := "y", amount := 0 }] 150).2 0
      (by norm_num) (by norm_num [dfltSpec])⟩

/-- Counterexample to C3 as stated: with an effective stack of one half
big blind, amounts are clamped to `max (1/2) 1 = 1`, which exceeds the
effective stack, and a zero-amount spec becomes 1, not the effective
stack. -/
theorem from_action_specs_clamped_cex :
    (¬ ∀ a ∈ (GameTree.from_action_specs [{ label := "abs-2.00", amount := 2 }]
          (1 / 2)).actions,
        a.amount ≤ (GameTree.from_action_specs
          [{ label := "abs-2.00", amount := 2 }] (1 / 2)).effective_stack_bb)
    ∧ ((GameTree.from_action_specs [{ label := "all-in", amount := 0 }]
          (1 / 2)).actions.getD 0 dfltTreeAction).amount ≠
        (GameTree.from_action_specs [{ label := "all-in", amount := 0 }]
          (1 / 2)).effective_stack_bb := by
  constructor
  · intro hall
    have hmem : (({ label := "abs-2.00",
                    amount := if (2 : ℚ) ≤ 0 then max (1 / 2 : ℚ) 1
                              else min 2 (max (1 / 2 : ℚ) 1) } : GameTreeAction)) ∈
        (GameTree.from_action_specs [{ label := "abs-2.00", amount := 2 }]
          (1 / 2)).actions := by
      simp [GameTree.from_action_specs]
    have h2 := hall _ hmem
    norm_num [GameTree.from_action_specs, max_def, min_def] at h2
  · norm_num [GameTree.from_action_specs, dfltTreeAction, max_def, min_def]

/-- C4 (amended): every spec produced by `parse_action_set` has a
non-negative amount; the strict bound fails (see the counterexample). -/
theorem parse_action_set_amount_nonneg (raw : List Token)
    (summary : GameStateSummary) (stack : ℚ) :
    ∀ s ∈ parse_action_set raw summary stack, 0 ≤ s.amount := by
  intro s hs
  unfold parse_action_set at hs
  by_cases hr : raw.isEmpty
  · rw [if_pos hr] at hs
    exact absurd hs (List.not_mem_nil s)
  · rw [if_neg hr] at hs
    obtain ⟨t, -, ht⟩ := List.mem_filterMap.mp hs
    have hcap : (0 : ℚ) ≤ max stack 1 := le_max_of_le_right zero_le_one
    cases t with
    | allin =>
      simp only [parse_action_token, Option.some.injEq] at ht
      rw [← ht]
      exact hcap
    | pot f =>
      simp only [parse_action_token, Option.some.injEq] at ht
      rw [← ht]
      exact le_min (le_max_of_le_right (by norm_num)) hcap
    | stackFrac f =>
      simp only [parse_action_token, Option.some.injEq] at ht
      rw [← ht]
      exact le_max_of_le_right (by norm_num)
    | absAmt v =>
      simp only [parse_action_token, Option.some.injEq] at ht
      rw [← ht]
      exact le_min (le_max_right _ _) hcap
    | bare v =>
      simp only [parse_action_token] at ht
      split at ht
      · simp only [Option.some.injEq] at ht
        rw [← ht]
        exact le_min (by linarith [show (0 : ℚ) < v from by assumption]) hcap
      · exact absurd ht (by simp)
    | other =>
      exact absurd ht (by simp [parse_action_token])

/-- Witness for C4 (amended) on a concrete all-in token. -/
theorem parse_action_set_amount_nonneg_witness :
    0 ≤ (({ label := "all-in", amount := max (150 : ℚ) 1 }) : ActionSpec).amount :=
  parse_action_set_amount_nonneg [Token.allin] potSummary 150 _
    (by simp [parse_action_set, parse_action_token])

/-- Counterexample to C4 as stated: the token `abs:0` produces a spec
whose amount is zero, not strictly positive. -/
theorem parse_action_set_amount_pos_cex :
    ¬ ∀ s ∈ parse_action_set [Token.absAmt (some 0)] potSummary 150,
        0 < s.amount := by
  intro hall
  have hmem : (({ label := "abs-" ++ fmt2 (max 0 0),
                  amount := min (max 0 0) (max (150 : ℚ) 1) } : ActionSpec)) ∈
      parse_action_set [Token.absAmt (some 0)] potSummary 150 := by
    simp [parse_action_set, parse_action_token]
  have h0 := hall _ hmem
  norm_num [max_def, min_def] at h0

/-- C5 (amended): a pot-fraction token yields the clamped pot-scaled
amount exactly as claimed, and the label renders the floored fraction
`max f 0.01` (not the raw `f`, see the counterexample) to two decimals;
the concrete half-pot instance gives amount 5. -/
theorem parse_pot_token_spec :
    (∀ (f : ℚ) (summary : GameStateSummary) (stack : ℚ),
        parse_action_set [Token.pot (some f)] summary stack =
          [{ label := "pot-" ++ fmt2 (max f (1 / 100))
             amount := qclamp (max f (1 / 100) *
                 max (summary.pot / max summary.blinds.big 1) 1) (1 / 2)
               (max stack 1) }])
    ∧ parse_action_set [Token.pot (some (1 / 2))]
        { pot := 20, street := "", blinds := { big := 2 } } 150 =
        [{ label := "pot-0.50", amount := 5 }] := by
  constructor
  · intro f summary stack
    rw [parse_single_pot]
    simp only [Option.getD_some]
  · rw [parse_single_pot]
    norm_num [qclamp, max_def, min_def, fmt2_half]
    rfl

/-- Counterexample to the label clause of C5 as stated: for the token
`pot:0.001` the code renders the floored fraction, producing the label
`pot-0.01`, while the raw fraction rendered to two decimals is `0.00`. -/
theorem parse_pot_token_label_cex :
    ((parse_action_set [Token.pot (some (1 / 1000))] potSummary 150).map
        (fun s => s.label) = ["pot-0.01"])
    ∧ fmt2 (1 / 1000) = "0.00"
    ∧ ((parse_action_set [Token.pot (some (1 / 1000))] potSummary 150).map
        (fun s => s.label) ≠ ["pot-" ++ fmt2 (1 / 1000)]) := by
  have h1 : (parse_action_set [Token.pot (some (1 / 1000))] potSummary
      150).map (fun s => s.label) = ["pot-0.01"] := by
    rw [parse_single_pot]
    norm_num [max_def, fmt2_hundredth]
    rfl
  refine ⟨h1, fmt2_thousandth, ?_⟩
  rw [h1, fmt2_thousandth]
  decide

/-- Indexing a range-map at an in-range position gives the function
value. -/
lemma getD_range_map {γ : Type} (h : ℕ → γ) (d : γ) (len i : ℕ)
    (hi : i < len) : ((List.range len).map h).getD i d = h i := by
  rw [List.getD_eq_getElem?_getD, List.getElem?_map, List.getElem?_range hi]
  rfl

/-- Mapping a composed `getD` accessor over the index range of a list is
mapping over the list itself. -/
lemma range_getD_map {γ : Type} (d : ℚ) (g : ℚ → γ) (w : List ℚ) :
    (List.range w.length).map (fun i => g (w.getD i d)) = w.map g := by
  induction w with
  | nil => rfl
  | cons a t ih =>
    rw [List.length_cons, List.range_succ_eq_map, List.map_cons,
      List.map_map]
    simp only [List.getD_cons_zero, Function.comp_def, List.getD_cons_succ]
    rw [ih, List.map_cons]

/-- Raw frequencies are non-negative. -/
lemma cfr_raw_freqs_nonneg (tree : GameTree) :
    ∀ x ∈ cfr_raw_freqs tree, 0 ≤ x := by
  intro x hx
  obtain ⟨i, -, rfl⟩ := List.mem_map.mp hx
  exact le_max_right _ _

/-- The post-fallback frequency list has one entry per action. -/
lemma cfr_freqs_length (tree : GameTree) :
    (cfr_freqs tree).length = tree.actions.length := by
  unfold cfr_freqs cfr_raw_freqs
  split <;> simp

/-- Post-fallback frequencies are non-negative. -/
lemma cfr_freqs_nonneg (tree : GameTree) : ∀ x ∈ cfr_freqs tree, 0 ≤ x := by
  unfold cfr_freqs
  split
  · intro x hx
    obtain ⟨-, -, rfl⟩ := List.mem_map.mp hx
    norm_num
  · exact cfr_raw_freqs_nonneg tree

/-- The post-fallback frequencies sum to the normalization total in both
branches. -/
lemma cfr_freqs_sum (tree : GameTree) :
    (cfr_freqs tree).sum = cfr_total tree := by
  unfold cfr_freqs cfr_total
  split
  · rw [List.map_const', List.sum_replicate, nsmul_eq_mul, mul_one]
    unfold cfr_raw_freqs cfr_count
    simp
  · rfl

/-- The normalization total is positive on a non-empty tree. -/
lemma cfr_total_pos (tree : GameTree) (h : tree.actions ≠ []) :
    0 < cfr_total tree := by
  unfold cfr_total
  split
  · unfold cfr_count
    exact_mod_cast List.length_pos.mpr h
  · rename_i hc
    have heps : (0 : ℚ) < f64Epsilon := by norm_num [f64Epsilon]
    exact lt_trans heps (lt_of_not_le hc)

/-- Each post-fallback frequency is at most the total. -/
lemma cfr_freq_le_total (tree : GameTree) :
    ∀ x ∈ cfr_freqs tree, x ≤ cfr_total tree := by
  intro x hx
  rw [← cfr_freqs_sum]
  exact List.single_le_sum (cfr_freqs_nonneg tree) x hx

/-- The frequency column of the stats, as a clamped division over the
post-fallback frequency list. -/
lemma run_cfr_freq_list (tree : GameTree) (it : ℕ) (h : tree.actions ≠ []) :
    (run_cfr tree it).map (fun s => s.frequency) =
      (cfr_freqs tree).map (fun x => qclamp (x / cfr_total tree) 0 1) := by
  rw [run_cfr_eq tree it h, List.map_map, List.enum_eq_zip_range]
  rw [map_zip_fst _
    (fun i => qclamp ((cfr_freqs tree).getD i 0 / cfr_total tree) 0 1)
    (fun a b => rfl) _ _ (by simp)]
  rw [← cfr_freqs_length tree]
  exact range_getD_map 0 (fun x => qclamp (x / cfr_total tree) 0 1)
    (cfr_freqs tree)

/-- The frequencies of a non-empty solve sum to exactly one. -/
lemma run_cfr_freq_sum (tree : GameTree) (it : ℕ) (h : tree.actions ≠ []) :
    ((run_cfr tree it).map (fun s => s.frequency)).sum = 1 := by
  rw [run_cfr_freq_list tree it h]
  have htot := cfr_total_pos tree h
  have hid : ∀ x ∈ cfr_freqs tree,
      qclamp (x / cfr_total tree) 0 1 = x * (cfr_total tree)⁻¹ := by
    intro x hx
    unfold qclamp
    rw [max_eq_left (div_nonneg (cfr_freqs_nonneg tree x hx) (le_of_lt htot)),
      min_eq_left ((div_le_one htot).mpr (cfr_freq_le_total tree x hx))]
    exact div_eq_mul_inv x _
  rw [List.map_congr_left hid, List.sum_map_mul_right, List.map_id',
    ← div_eq_mul_inv, cfr_freqs_sum, div_self (ne_of_gt htot)]

/-- C1: on every non-empty tree and for every iteration count, the
frequencies sum to one within the stated tolerance and each lies in the
unit interval. -/
theorem run_cfr_frequencies_normalized (tree : GameTree) (iterations : ℕ)
    (h : tree.actions ≠ []) :
    |((run_cfr tree iterations).map (fun s => s.frequency)).sum - 1| ≤
        1 / 1000000000
    ∧ ∀ s ∈ run_cfr tree iterations, 0 ≤ s.frequency ∧ s.frequency ≤ 1 := by
  constructor
  · rw [run_cfr_freq_sum tree iterations h]
    norm_num
  · intro s hs
    rw [run_cfr_eq tree iterations h] at hs
    obtain ⟨p, -, rfl⟩ := List.mem_map.mp hs
    exact ⟨le_min (le_max_right _ _) zero_le_one, min_le_right _ _⟩

/-- Witness for C1 on a concrete two-action tree with seven iterations. -/
theorem run_cfr_frequencies_normalized_witness :
    |((run_cfr witTree 7).map (fun s => s.frequency)).sum - 1| ≤ 1 / 1000000000
    ∧ ∀ s ∈ run_cfr witTree 7, 0 ≤ s.frequency ∧ s.frequency ≤ 1 :=
  run_cfr_frequencies_normalized witTree 7 (List.cons_ne_nil _ _)

/-- Indexing the stats of a non-empty solve at an in-range position. -/
lemma run_cfr_getD (tree : GameTree) (it i : ℕ)
    (hi : i < tree.actions.length) (hne : tree.actions ≠ []) :
    (run_cfr tree it).getD i dfltStat =
      { label := (tree.actions.getD i dfltTreeAction).label
        amount := (tree.actions.getD i dfltTreeAction).amount
        frequency := qclamp ((cfr_freqs tree).getD i 0 / cfr_total tree) 0 1
        ev := (max tree.effective_stack_bb 1 / 100) *
          max (cfr_modulation i) (1 / 10)
        regret := ((((max it 1 : ℕ) : ℚ) - 1) / ((max it 1 : ℕ) : ℚ)) *
          max (1 / 10 - (i : ℚ) * (1 / 100)) 0 } := by
  rw [run_cfr_eq tree it hne]
  simp only [List.getD_eq_getElem?_getD, List.getElem?_map,
    List.getElem?_enum, List.getElem?_eq_getElem hi, Option.map_some',
    Option.getD_some]

/-- The modulation factor is antitone in the action index. -/
lemma cfr_modulation_anti {i j : ℕ} (hij : i ≤ j) :
    cfr_modulation j ≤ cfr_modulation i := by
  unfold cfr_modulation
  have hc : (i : ℚ) ≤ j := Nat.cast_le.mpr hij
  linarith [mul_le_mul_of_nonneg_right hc (by norm_num : (0 : ℚ) ≤ 5 / 100)]

/-- C9: within one solve both ev and regret are non-increasing in the
action index. -/
theorem run_cfr_monotone (tree : GameTree) (it : ℕ) (i j : ℕ)
    (hij : i < j) (hj : j < (run_cfr tree it).length) :
    ((run_cfr tree it).getD j dfltStat).ev ≤
        ((run_cfr tree it).getD i dfltStat).ev
    ∧ ((run_cfr tree it).getD j dfltStat).regret ≤
        ((run_cfr tree it).getD i dfltStat).regret := by
  have hne : tree.actions ≠ [] := by
    intro h0
    rw [run_cfr] at hj
    simp [h0] at hj
  have hlen : (run_cfr tree it).length = tree.actions.length := by
    rw [run_cfr_eq tree it hne]
    simp
  have hj2 : j < tree.actions.length := hlen ▸ hj
  have hi2 : i < tree.actions.length := lt_trans hij hj2
  rw [run_cfr_getD tree it i hi2 hne, run_cfr_getD tree it j hj2 hne]
  constructor
  · dsimp only
    apply mul_le_mul_of_nonneg_left
    · exact max_le_max (cfr_modulation_anti (le_of_lt hij)) (le_refl _)
    · exact div_nonneg (le_trans zero_le_one (le_max_right _ _)) (by norm_num)
  · dsimp only
    apply mul_le_mul_of_nonneg_left
    · refine max_le_max ?_ (le_refl 0)
      have hc : (i : ℚ) ≤ j := Nat.cast_le.mpr (le_of_lt hij)
      linarith [mul_le_mul_of_nonneg_right hc
        (by norm_num : (0 : ℚ) ≤ 1 / 100)]
    · have h1 : (1 : ℚ) ≤ ((max it 1 : ℕ) : ℚ) := by
        exact_mod_cast le_max_right it 1
      exact div_nonneg (by linarith) (by linarith)

/-- Witness for C9 on the concrete two-action tree at indices 0 and 1. -/
theorem run_cfr_monotone_witness :
    ((run_cfr witTree 7).getD 1 dfltStat).ev ≤
        ((run_cfr witTree 7).getD 0 dfltStat).ev
    ∧ ((run_cfr witTree 7).getD 1 dfltStat).regret ≤
        ((run_cfr witTree 7).getD 0 dfltStat).regret :=
  run_cfr_monotone witTree 7 0 1 (by norm_num) (by simp [run_cfr, witTree])

/-- A non-empty string has a first character. -/
lemma head_some_of_ne {s : String} (h : s ≠ "") :
    ∃ ch, s.data.head? = some ch := by
  cases hd : s.data with
  | nil => exact absurd (String.ext_iff.mpr (by rw [hd])) h
  | cons a t => exact ⟨a, rfl⟩

/-- A non-empty string has a last character. -/
lemma last_some_of_ne {s : String} (h : s ≠ "") :
    ∃ ch, s.data.getLast? = some ch := by
  have hnil : s.data ≠ [] :=
    fun hd => h (String.ext_iff.mpr (by rw [hd]))
  exact Option.isSome_iff_exists.mp (List.getLast?_isSome.mpr hnil)

/-- C10: `bucket_hole_cards` returns a bucket without panicking whenever
all supplied card codes are non-empty strings, but an empty-string code
among two or more codes reaches an `unwrap` panic (embedded as `none`),
as witnessed by the pair of codes `""` and `"Ah"`. -/
theorem bucket_hole_cards_safety :
    (∀ (codes : List String), 2 ≤ codes.length → (∀ c ∈ codes, c ≠ "") →
        (bucket_hole_cards codes).isSome = true)
    ∧ bucket_hole_cards ["", "Ah"] = none := by
  constructor
  · intro codes h2 hne
    simp only [bucket_hole_cards]
    rw [if_neg (by omega : ¬ codes.length < 2)]
    set sorted := codes.insertionSort (fun a b => str_le a b = true)
      with hsorted
    have hperm : sorted.Perm codes := List.perm_insertionSort _ codes
    have hclen : sorted.length = codes.length := hperm.length_eq
    have m0 : sorted.getD 0 "" ∈ codes :=
      hperm.mem_iff.mp (getD_mem_of_lt _ 0 "" (by omega))
    obtain ⟨ch0, hch0⟩ := head_some_of_ne (hne _ m0)
    by_cases heq : (sorted.getD 0 "").data.head? =
        (sorted.getD 1 "").data.head?
    · rw [if_pos heq, hch0]
      rfl
    · rw [if_neg heq]
      have m1 : codes.getD 0 "" ∈ codes := getD_mem_of_lt _ 0 "" (by omega)
      obtain ⟨lc, hlc⟩ := last_some_of_ne (hne _ m1)
      rw [hlc]
      rfl
  · decide

/-- Witness for C10 on two concrete well-formed card codes. -/
theorem bucket_hole_cards_safety_witness :
    (bucket_hole_cards ["Ah", "Kd"]).isSome = true :=
  bucket_hole_cards_safety.1 ["Ah", "Kd"] (by norm_num) (by decide)

end SolverSpec
